import Mathlib

/-!
Shallow embedding of the `inverseschema` Go package (PostgreSQL schema
introspection): the datatype classifier, the column/constraint/enum
extractors, the constraint reconciler, the table assembler and the schema
orchestrator, together with theorems settling the specification claims.

Catalog queries are modelled by taking the result rows as explicit inputs:
a scanned nullable column is an `Option`, and the Go runtime panic caused by
dereferencing a nil pointer is the explicit result `ExtractResult.panic`,
kept distinct from an error value returned by the function
(`ExtractResult.err`).
-/

namespace InverseSchema

/-- Result of an extraction step: a runtime panic (nil-pointer dereference),
a returned error value, or success. Mirrors the Go functions that either
crash, return a non-nil `error`, or return a value. -/
inductive ExtractResult (α : Type) where
  | panic : ExtractResult α
  | err : String → ExtractResult α
  | ok : α → ExtractResult α
deriving DecidableEq, Repr

/-- The `Datatype` enumeration from `types.go`. -/
inductive Datatype where
  | unknown
  | userdefined
  | array
  | bigint
  | int
  | smallint
  | decimal
  | numeric
  | variableNumeric
  | jsonb
  | json
  | text
  | varchar
  | boolean
  | date
  | timestamp
  | timestampz
  | uuid
deriving DecidableEq, Repr

/-- The `ConstraintType` enumeration from `types.go`. -/
inductive ConstraintType where
  | check
  | foreignKey
  | primaryKey
  | unique
  | trigger
  | exclusion
deriving DecidableEq, Repr

/-- The `Constraint` struct from `types.go`. -/
structure Constraint where
  name : String := ""
  type : ConstraintType
  tablename : String := ""
  columnname : String := ""
  foreignTablename : String := ""
  foreignColumnname : String := ""
deriving DecidableEq, Repr

/-- The `UserDefinedType` struct from `types.go`. -/
structure UserDefinedType where
  name : String := ""
  schema : String := ""
deriving DecidableEq, Repr

/-- The `Column` struct from `types.go`; the defaults are the Go zero values
(`Default` is rendered as `defaultValue`). -/
structure Column where
  ordinalPosition : Int := 0
  name : String := ""
  constraints : List Constraint := []
  isReference : Bool := false
  foreignTablename : String := ""
  foreignColumnname : String := ""
  isPrimary : Bool := false
  isUnique : Bool := false
  hasDefault : Bool := false
  defaultValue : String := ""
  isNullable : Bool := false
  datatypeRaw : String := ""
  datatype : Datatype := .unknown
  isUserDefined : Bool := false
  isArray : Bool := false
  characterMaxLength : Int := 0
  userDefinedType : Option UserDefinedType := none
  comments : String := ""
deriving DecidableEq, Repr

/-- The `Table` struct from `types.go`; the Go `map[string]Column` is modelled
as an association list updated in place (`alInsert`). -/
structure Table where
  name : String := ""
  columns : List Column := []
  columnsByName : List (String × Column) := []
deriving DecidableEq, Repr

/-- The `EnumValue` struct from `types.go`. -/
structure EnumValue where
  label : String := ""
  order : Int := 0
deriving DecidableEq, Repr

/-- The `Enum` struct from `types.go`. -/
structure Enum where
  name : String := ""
  values : List EnumValue := []
deriving DecidableEq, Repr

/-- Association-list lookup: the model of reading `m[k]` on a Go map. -/
def alFind? {α : Type} (m : List (String × α)) (k : String) : Option α :=
  match m with
  | [] => none
  | (k', v) :: rest => if k' = k then some v else alFind? rest k

/-- Association-list update: the model of `m[k] = v` on a Go map (replaces
the existing entry for `k`, otherwise appends a fresh one). -/
def alInsert {α : Type} (m : List (String × α)) (k : String) (v : α) :
    List (String × α) :=
  match m with
  | [] => [(k, v)]
  | (k', v') :: rest =>
      if k' = k then (k, v) :: rest else (k', v') :: alInsert rest k v

/-- The `postgresDatatypemap` table from `postgres.go` as a partial lookup. -/
def postgresDatatypemap (s : String) : Option Datatype :=
  match s with
  | "USER-DEFINED" => some .userdefined
  | "ARRAY" => some .array
  | "boolean" => some .boolean
  | "integer" => some .int
  | "bigint" => some .bigint
  | "numeric" => some .numeric
  | "text" => some .text
  | "character varying" => some .varchar
  | "jsonb" => some .jsonb
  | "uuid" => some .uuid
  | "date" => some .date
  | "timestamp without time zone" => some .timestamp
  | "timestamp with time zone" => some .timestampz
  | _ => none

/-- The lookup-with-fallback idiom `if ok { dt } else { DatatypeUnknown }`
applied to `postgresDatatypemap` (§4.1 datatype classifier). -/
def classify (s : String) : Datatype :=
  (postgresDatatypemap s).getD .unknown

/-- One result row of the constraint catalog query in
`parseTableConstraints` (`postgres.go`): `column_name`,
`foreign_table_name` and `foreign_column_name` are scanned into `*string`
and may be NULL under the LEFT JOINs. -/
structure ConstraintRow where
  constraintname : String := ""
  constrainttype : String := ""
  columnname : Option String := none
  foreignTablename : Option String := none
  foreignColumnname : Option String := none
deriving DecidableEq, Repr

/-- The per-row body of the loop in `parseTableConstraints`: the
`Constraint` struct literal dereferences the three scanned pointers first
(a NULL there panics), then the switch on `constraint_type` maps the label
or returns the `unsupported constraint type` error. -/
def parseConstraintRow (tablename : String) (r : ConstraintRow) :
    ExtractResult Constraint :=
  match r.columnname, r.foreignTablename, r.foreignColumnname with
  | some cn, some ft, some fc =>
    let mk : ConstraintType → Constraint := fun t =>
      { name := r.constraintname
        type := t
        tablename := tablename
        columnname := cn
        foreignTablename := ft
        foreignColumnname := fc }
    match r.constrainttype with
    | "PRIMARY KEY" => .ok (mk .primaryKey)
    | "FOREIGN KEY" => .ok (mk .foreignKey)
    | "UNIQUE" => .ok (mk .unique)
    | other => .err ("unsupported constraint type: " ++ other)
  | _, _, _ => .panic

/-- The loop of `parseTableConstraints` over the already-delivered rows: processes each
row in order, stopping at the first panic or error. -/
def parseTableConstraints (tablename : String) (rows : List ConstraintRow) :
    ExtractResult (List Constraint) :=
  match rows with
  | [] => .ok []
  | r :: rest =>
    match parseConstraintRow tablename r with
    | .panic => .panic
    | .err e => .err e
    | .ok c =>
      match parseTableConstraints tablename rest with
      | .panic => .panic
      | .err e => .err e
      | .ok cs => .ok (c :: cs)

/-- One result row of the column catalog query in `parseTableColumns`
(`postgres.go`): every field scanned into a pointer is an `Option`. -/
structure ColumnRow where
  ordinalPosition : Int := 0
  columnName : String := ""
  columnDefault : Option String := none
  isNullable : Option String := none
  dataTypeRaw : String := ""
  elementArraytypeRaw : Option String := none
  elementUdtCatalog : Option String := none
  elementUdtSchema : Option String := none
  elementUdtName : Option String := none
  characterMaximumLength : Option Int := none
  numericPrecision : Option Int := none
  udtCatalog : Option String := none
  udtSchema : Option String := none
  udtName : Option String := none
  comments : Option String := none
deriving DecidableEq, Repr

/-- Statement 1 of the loop body of `parseTableColumns`: the `Column`
struct literal (ordinal position, name, verbatim raw datatype). -/
def colBase (r : ColumnRow) : Column :=
  { ordinalPosition := r.ordinalPosition
    name := r.columnName
    datatypeRaw := r.dataTypeRaw }

/-- Statement `if comments != nil { col.Comments = *comments }`. -/
def colComments (r : ColumnRow) (col : Column) : Column :=
  match r.comments with
  | some s => { col with comments := s }
  | none => col

/-- Statements `datatype, ok := postgresDatatypemap[datatypeRaw]; if ok
{...} else { col.Datatype = DatatypeUnknown }`. -/
def colClassify (r : ColumnRow) (col : Column) : Column :=
  { col with datatype := classify r.dataTypeRaw }

/-- Statement `if characterMaximumLength != nil { ... }`. -/
def colCharLen (r : ColumnRow) (col : Column) : Column :=
  match r.characterMaximumLength with
  | some n => { col with characterMaxLength := n }
  | none => col

/-- Statement `if isNullable != nil && *isNullable == "YES" { ... }`. -/
def colNullable (r : ColumnRow) (col : Column) : Column :=
  if r.isNullable = some "YES" then { col with isNullable := true } else col

/-- Statement `if columnDefault != nil && len(*columnDefault) > 0 {...}`. -/
def colDefault (r : ColumnRow) (col : Column) : Column :=
  match r.columnDefault with
  | some d =>
      if d.length > 0 then { col with hasDefault := true, defaultValue := d }
      else col
  | none => col

/-- The `if col.Datatype == DatatypeUserdefined` block: dereferences
`udt_name` and `udt_schema` (panicking when NULL). -/
def colUserDefined (r : ColumnRow) (col : Column) : ExtractResult Column :=
  if col.datatype = .userdefined then
    match r.udtName, r.udtSchema with
    | some un, some us =>
        .ok { col with
                isUserDefined := true
                userDefinedType := some { name := un, schema := us } }
    | _, _ => .panic
  else .ok col

/-- The `if col.Datatype == DatatypeArray` block: dereferences the element
type (panicking when NULL), re-classifies using the element type string,
and when the element classifies as USER-DEFINED populates
`UserDefinedType` from the element-level udt name and schema. -/
def colArray (r : ColumnRow) (col : Column) : ExtractResult Column :=
  if col.datatype = .array then
    match r.elementArraytypeRaw with
    | none => .panic
    | some e =>
      let col := { col with isArray := true, datatype := classify e }
      if col.datatype = .userdefined then
        match r.elementUdtName, r.elementUdtSchema with
        | some un, some us =>
            .ok { col with
                    isUserDefined := true
                    userDefinedType := some { name := un, schema := us } }
        | _, _ => .panic
      else .ok col
  else .ok col

/-- Statements 1-6 of the loop body (everything before the USER-DEFINED
and ARRAY blocks), composed in source order. -/
def colScalars (r : ColumnRow) : Column :=
  colDefault r (colNullable r (colCharLen r (colClassify r
    (colComments r (colBase r)))))

/-- The per-row body of the loop in `parseTableColumns`, the statements in
source order. -/
def parseColumnRow (r : ColumnRow) : ExtractResult Column :=
  match colUserDefined r (colScalars r) with
  | .panic => .panic
  | .err e => .err e
  | .ok col => colArray r col

/-- The loop of `parseTableColumns` over the delivered rows, stopping at
the first panic or error. -/
def parseTableColumns (rows : List ColumnRow) : ExtractResult (List Column) :=
  match rows with
  | [] => .ok []
  | r :: rest =>
    match parseColumnRow r with
    | .panic => .panic
    | .err e => .err e
    | .ok c =>
      match parseTableColumns rest with
      | .panic => .panic
      | .err e => .err e
      | .ok cs => .ok (c :: cs)

/-- The per-constraint body of `refrenceConstraints`: look the owning
column up by `Columnname`; if absent skip (`continue // how?`); otherwise
append the constraint, apply the derived-flag switch, and write the column
back under the same key. -/
def applyConstraint (m : List (String × Column)) (c : Constraint) :
    List (String × Column) :=
  match alFind? m c.columnname with
  | none => m
  | some col =>
    let col := { col with constraints := col.constraints ++ [c] }
    let col :=
      match c.type with
      | .primaryKey => { col with isPrimary := true }
      | .foreignKey =>
          { col with
              isReference := true
              foreignTablename := c.foreignTablename
              foreignColumnname := c.foreignColumnname }
      | .unique => { col with isUnique := true }
      | _ => col
    alInsert m c.columnname col

/-- The `refrenceConstraints` loop (`postgres.go`): folds every constraint
into the name-keyed column map. The Go function's `error` result is
unconditionally nil, so the model is a total function. -/
def refrenceConstraints (m : List (String × Column)) (cs : List Constraint) :
    List (String × Column) :=
  match cs with
  | [] => m
  | c :: rest => refrenceConstraints (applyConstraint m c) rest

/-- Non-decreasing comparison on `OrdinalPosition`, the order used by the
`sort.Slice` call in `parseTable`. -/
def colLE (a b : Column) : Prop :=
  a.ordinalPosition ≤ b.ordinalPosition

instance : DecidableRel colLE := fun a b =>
  inferInstanceAs (Decidable (a.ordinalPosition ≤ b.ordinalPosition))

instance : IsTotal Column colLE :=
  ⟨fun a b => Int.le_total a.ordinalPosition b.ordinalPosition⟩

instance : IsTrans Column colLE :=
  ⟨fun _ _ _ hab hbc => le_trans hab hbc⟩

/-- The `parseTable` assembler (`postgres.go`): parse columns, build the
name-keyed map, parse constraints, reconcile, then materialise the ordered
column sequence from the map's entries sorted by ordinal position. The Go
map's unspecified iteration order is fixed to the map's entry order here;
the properties proved below do not depend on that choice. -/
def parseTable (tablename : String) (colRows : List ColumnRow)
    (consRows : List ConstraintRow) : ExtractResult Table :=
  match parseTableColumns colRows with
  | .panic => .panic
  | .err e => .err e
  | .ok cols =>
    let m := cols.foldl (fun m c => alInsert m c.name c) []
    match parseTableConstraints tablename consRows with
    | .panic => .panic
    | .err e => .err e
    | .ok cs =>
      let m := refrenceConstraints m cs
      .ok { name := tablename
            columns := List.insertionSort colLE (m.map Prod.snd)
            columnsByName := m }

/-- One row of the table-listing query in `Tables`: `tablename` is scanned
into a `*string` and dereferenced without a nil check. -/
def TableRow : Type := Option String

/-- The `Tables` loop (`postgres.go`): for each listed name, dereference
it (panicking on NULL) and assemble the table; the per-table catalog rows
are supplied as functions of the table name. -/
def Tables (colRowsOf : String → List ColumnRow)
    (consRowsOf : String → List ConstraintRow) (rows : List TableRow) :
    ExtractResult (List Table) :=
  match rows with
  | [] => .ok []
  | none :: _ => .panic
  | some tn :: rest =>
    match parseTable tn (colRowsOf tn) (consRowsOf tn) with
    | .panic => .panic
    | .err e => .err e
    | .ok t =>
      match Tables colRowsOf consRowsOf rest with
      | .panic => .panic
      | .err e => .err e
      | .ok ts => .ok (t :: ts)

/-- One `(typname, enumsortorder, enumlabel)` row of the enum catalog
query in `Enums` (`postgres.go`). -/
structure EnumRow where
  typname : String := ""
  enumsortorder : Int := 0
  enumlabel : String := ""
deriving DecidableEq, Repr

/-- The grouping loop of `Enums`: per row, append the `(label, order)`
pair to the existing group for `typname` or start a new group. The Go map
`enumsByName` is an association list here, so group order is insertion
order (one of the orders the unspecified Go map iteration can produce);
values within a group are appended in row-delivery order exactly as in the
source. -/
def enumsFold (m : List (String × Enum)) (rows : List EnumRow) :
    List (String × Enum) :=
  match rows with
  | [] => m
  | r :: rest =>
    match alFind? m r.typname with
    | some enum =>
        enumsFold
          (alInsert m r.typname
            { enum with
                values := enum.values ++ [{ label := r.enumlabel, order := r.enumsortorder }] })
          rest
    | none =>
        enumsFold
          (alInsert m r.typname
            { name := r.typname
              values := [{ label := r.enumlabel, order := r.enumsortorder }] })
          rest

/-- The `Enums` extractor over the delivered rows: group, then flatten the
map to a slice. No sort of any kind is applied. -/
def Enums (rows : List EnumRow) : List Enum :=
  (enumsFold [] rows).map Prod.snd

/-- Trace marker for the two adapter calls made by `ParseContext`. -/
inductive Step where
  | tablesStep
  | enumsStep
deriving DecidableEq, Repr

/-- The `Schema` struct (`NewSchema`/`ParseContext` file): the adapter
capability is passed separately, the two result slices are the state. -/
structure SchemaS where
  tables : List Table := []
  enums : List Enum := []
deriving DecidableEq, Repr

/-- The `ParseContext` orchestrator: call the adapter's `Tables`, on error
return it at once (the `Enums` call never happens); otherwise call the
adapter's `Enums`, on error return it; otherwise succeed. The adapter
calls are modelled by their results (`Except` values, error type `ε`
opaque) plus an invocation trace; a failed Go call returns a nil slice,
assigned to the schema field before the error check. -/
def ParseContext {ε : Type} (tablesRes : Except ε (List Table))
    (enumsRes : Except ε (List Enum)) (s : SchemaS) :
    Except ε Unit × SchemaS × List Step :=
  match tablesRes with
  | .error e => (.error e, { s with tables := [] }, [.tablesStep])
  | .ok ts =>
    match enumsRes with
    | .error e =>
        (.error e, { s with tables := ts, enums := [] },
         [.tablesStep, .enumsStep])
    | .ok es =>
        (.ok (), { s with tables := ts, enums := es },
         [.tablesStep, .enumsStep])

/-- Spec-side predicate (wording of the Enum ordering claim): the value
sequence is non-decreasing in the `order` field. -/
def valuesSortedByOrder : List EnumValue → Bool
  | [] => true
  | [_] => true
  | a :: b :: rest => a.order ≤ b.order && valuesSortedByOrder (b :: rest)

/-- The `(label, order)` pairs of the rows named `n`, in delivery order. -/
def valuesOf (rows : List EnumRow) (n : String) : List EnumValue :=
  (rows.filter (fun r => r.typname = n)).map
    (fun r => { label := r.enumlabel, order := r.enumsortorder })

/-- Projection used to state facts about one column of an assembled table:
the entry of the lookup mapping at `n`, when assembly succeeded. -/
def resultColumn (res : ExtractResult Table) (n : String) : Option Column :=
  match res with
  | .ok tbl => alFind? tbl.columnsByName n
  | _ => none

theorem alFind?_alInsert_self {α : Type} (m : List (String × α)) (k : String)
    (v : α) : alFind? (alInsert m k v) k = some v := by
  induction m with
  | nil => simp [alInsert, alFind?]
  | cons p rest ih =>
    obtain ⟨k', v'⟩ := p
    by_cases h : k' = k <;> simp [alInsert, alFind?, h, ih]

theorem alFind?_alInsert_ne {α : Type} (m : List (String × α)) (k k' : String)
    (v : α) (h : k' ≠ k) : alFind? (alInsert m k v) k' = alFind? m k' := by
  have hne : ¬k = k' := fun he => h he.symm
  induction m with
  | nil =>
    simp only [alInsert, alFind?]
    rw [if_neg hne]
  | cons p rest ih =>
    obtain ⟨k'', v''⟩ := p
    by_cases hk : k'' = k
    · subst hk
      simp only [alInsert, if_pos rfl, alFind?]
      rw [if_neg hne, if_neg hne]
    · simp only [alInsert, if_neg hk, alFind?]
      by_cases hk' : k'' = k'
      · rw [if_pos hk', if_pos hk']
      · rw [if_neg hk', if_neg hk', ih]

theorem alInsert_keys_of_find?_some {α : Type} (m : List (String × α))
    (k : String) (v v' : α) (h : alFind? m k = some v') :
    (alInsert m k v).map Prod.fst = m.map Prod.fst := by
  induction m with
  | nil => simp [alFind?] at h
  | cons p rest ih =>
    obtain ⟨k'', v''⟩ := p
    by_cases hk : k'' = k
    · subst hk; simp [alInsert]
    · simp [alFind?, hk] at h
      simp [alInsert, hk, ih h]

theorem alFind?_eq_none_iff {α : Type} (m : List (String × α)) (k : String) :
    alFind? m k = none ↔ k ∉ m.map Prod.fst := by
  induction m with
  | nil => simp [alFind?]
  | cons p rest ih =>
    obtain ⟨k'', v''⟩ := p
    by_cases hk : k'' = k
    · subst hk; simp [alFind?]
    · have hk' : ¬k = k'' := fun he => hk he.symm
      simp [alFind?, hk, hk', ih]

theorem alFind?_mem {α : Type} (m : List (String × α)) (k : String) (v : α)
    (h : alFind? m k = some v) : (k, v) ∈ m := by
  induction m with
  | nil => simp [alFind?] at h
  | cons p rest ih =>
    obtain ⟨k'', v''⟩ := p
    by_cases hk : k'' = k
    · subst hk
      simp [alFind?] at h
      simp [h]
    · simp [alFind?, hk] at h
      exact List.mem_cons_of_mem _ (ih h)

theorem mem_alInsert {α : Type} (m : List (String × α)) (k : String) (v : α)
    (p : String × α) (h : p ∈ alInsert m k v) : p = (k, v) ∨ p ∈ m := by
  induction m with
  | nil => simpa [alInsert] using h
  | cons q rest ih =>
    obtain ⟨k'', v''⟩ := q
    by_cases hk : k'' = k
    · subst hk
      simp [alInsert] at h
      rcases h with h | h
      · exact .inl h
      · exact .inr (List.mem_cons_of_mem _ h)
    · simp [alInsert, hk] at h
      rcases h with h | h
      · exact .inr (by simp [h])
      · rcases ih h with h' | h'
        · exact .inl h'
        · exact .inr (List.mem_cons_of_mem _ h')

theorem nodup_keys_alInsert {α : Type} (m : List (String × α)) (k : String)
    (v : α) (h : (m.map Prod.fst).Nodup) :
    ((alInsert m k v).map Prod.fst).Nodup := by
  induction m with
  | nil => simp [alInsert]
  | cons p rest ih =>
    obtain ⟨k'', v''⟩ := p
    rw [List.map_cons, List.nodup_cons] at h
    by_cases hk : k'' = k
    · subst hk
      have hins : alInsert ((k'', v'') :: rest) k'' v = (k'', v) :: rest := by
        simp [alInsert]
      rw [hins, List.map_cons, List.nodup_cons]
      exact h
    · have hmem : k'' ∉ (alInsert rest k v).map Prod.fst := by
        intro hin
        rcases List.mem_map.mp hin with ⟨q, hq, hfst⟩
        rcases mem_alInsert rest k v q hq with h' | h'
        · subst h'
          exact hk hfst.symm
        · exact h.1 (List.mem_map.mpr ⟨q, h', hfst⟩)
      simp only [alInsert, if_neg hk, List.map_cons, List.nodup_cons]
      exact ⟨hmem, ih h.2⟩

theorem alFind?_of_mem_nodup {α : Type} (m : List (String × α)) (k : String)
    (v : α) (hnd : (m.map Prod.fst).Nodup) (h : (k, v) ∈ m) :
    alFind? m k = some v := by
  induction m with
  | nil => simp at h
  | cons p rest ih =>
    obtain ⟨k'', v''⟩ := p
    rw [List.map_cons, List.nodup_cons] at hnd
    rcases List.mem_cons.mp h with h' | h'
    · obtain ⟨hk, hv⟩ := Prod.ext_iff.mp h'
      simp only [alFind?]
      rw [if_pos hk.symm]
      exact congrArg some hv.symm
    · have hk : ¬k'' = k := by
        intro he
        apply hnd.1
        rw [he]
        exact List.mem_map.mpr ⟨(k, v), h', rfl⟩
      simp only [alFind?]
      rw [if_neg hk]
      exact ih hnd.2 h'

/-- A column as produced by the column extractor, before reconciliation:
no derived flag set and no attached constraint. -/
def freshCol (c : Column) : Prop :=
  c.isPrimary = false ∧ c.isUnique = false ∧ c.isReference = false ∧
    c.constraints = []

theorem colComments_fresh (r : ColumnRow) (col : Column) (h : freshCol col) :
    freshCol (colComments r col) := by
  cases hc : r.comments <;> simpa [colComments, hc, freshCol] using h

theorem colClassify_fresh (r : ColumnRow) (col : Column) (h : freshCol col) :
    freshCol (colClassify r col) := by
  simpa [colClassify, freshCol] using h

theorem colCharLen_fresh (r : ColumnRow) (col : Column) (h : freshCol col) :
    freshCol (colCharLen r col) := by
  cases hc : r.characterMaximumLength <;>
    simpa [colCharLen, hc, freshCol] using h

theorem colNullable_fresh (r : ColumnRow) (col : Column) (h : freshCol col) :
    freshCol (colNullable r col) := by
  by_cases hc : r.isNullable = some "YES" <;>
    simpa [colNullable, hc, freshCol] using h

theorem colDefault_fresh (r : ColumnRow) (col : Column) (h : freshCol col) :
    freshCol (colDefault r col) := by
  cases hc : r.columnDefault with
  | none => simpa [colDefault, hc, freshCol] using h
  | some d =>
    by_cases hd : d.length > 0 <;> simpa [colDefault, hc, hd, freshCol] using h

theorem colUserDefined_fresh (r : ColumnRow) (col c : Column)
    (hcol : freshCol col) (h : colUserDefined r col = .ok c) : freshCol c := by
  unfold colUserDefined at h
  split at h
  · cases hn : r.udtName <;> cases hs : r.udtSchema <;> rw [hn, hs] at h <;>
      simp at h
    rw [← h]
    simpa [freshCol] using hcol
  · injection h with h
    rw [← h]
    exact hcol

theorem colArray_fresh (r : ColumnRow) (col c : Column)
    (hcol : freshCol col) (h : colArray r col = .ok c) : freshCol c := by
  unfold colArray at h
  split at h
  · cases he : r.elementArraytypeRaw with
    | none => rw [he] at h; simp at h
    | some e =>
      rw [he] at h
      simp only at h
      split at h
      · cases hn : r.elementUdtName <;> cases hs : r.elementUdtSchema <;>
          rw [hn, hs] at h <;> simp at h
        rw [← h]
        simpa [freshCol] using hcol
      · injection h with h
        rw [← h]
        simpa [freshCol] using hcol
  · injection h with h
    rw [← h]
    exact hcol

theorem colScalars_fresh (r : ColumnRow) : freshCol (colScalars r) :=
  colDefault_fresh _ _ (colNullable_fresh _ _ (colCharLen_fresh _ _
    (colClassify_fresh _ _ (colComments_fresh _ _ ⟨rfl, rfl, rfl, rfl⟩))))

theorem colComments_datatype (r : ColumnRow) (col : Column) :
    (colComments r col).datatype = col.datatype := by
  cases hc : r.comments <;> simp [colComments, hc]

theorem colCharLen_datatype (r : ColumnRow) (col : Column) :
    (colCharLen r col).datatype = col.datatype := by
  cases hc : r.characterMaximumLength <;> simp [colCharLen, hc]

theorem colNullable_datatype (r : ColumnRow) (col : Column) :
    (colNullable r col).datatype = col.datatype := by
  by_cases hc : r.isNullable = some "YES" <;> simp [colNullable, hc]

theorem colDefault_datatype (r : ColumnRow) (col : Column) :
    (colDefault r col).datatype = col.datatype := by
  cases hc : r.columnDefault with
  | none => simp [colDefault, hc]
  | some d => by_cases hd : d.length > 0 <;> simp [colDefault, hc, hd]

theorem colComments_datatypeRaw (r : ColumnRow) (col : Column) :
    (colComments r col).datatypeRaw = col.datatypeRaw := by
  cases hc : r.comments <;> simp [colComments, hc]

theorem colCharLen_datatypeRaw (r : ColumnRow) (col : Column) :
    (colCharLen r col).datatypeRaw = col.datatypeRaw := by
  cases hc : r.characterMaximumLength <;> simp [colCharLen, hc]

theorem colNullable_datatypeRaw (r : ColumnRow) (col : Column) :
    (colNullable r col).datatypeRaw = col.datatypeRaw := by
  by_cases hc : r.isNullable = some "YES" <;> simp [colNullable, hc]

theorem colDefault_datatypeRaw (r : ColumnRow) (col : Column) :
    (colDefault r col).datatypeRaw = col.datatypeRaw := by
  cases hc : r.columnDefault with
  | none => simp [colDefault, hc]
  | some d => by_cases hd : d.length > 0 <;> simp [colDefault, hc, hd]

theorem colScalars_datatype (r : ColumnRow) :
    (colScalars r).datatype = classify r.dataTypeRaw := by
  unfold colScalars
  rw [colDefault_datatype, colNullable_datatype, colCharLen_datatype]
  rfl

theorem colScalars_datatypeRaw (r : ColumnRow) :
    (colScalars r).datatypeRaw = r.dataTypeRaw := by
  unfold colScalars
  rw [colDefault_datatypeRaw, colNullable_datatypeRaw, colCharLen_datatypeRaw,
    show (colClassify r (colComments r (colBase r))).datatypeRaw
      = (colComments r (colBase r)).datatypeRaw from rfl,
    colComments_datatypeRaw]
  rfl

theorem parseColumnRow_fresh (r : ColumnRow) (c : Column)
    (h : parseColumnRow r = .ok c) : freshCol c := by
  cases hud : colUserDefined r (colScalars r) with
  | panic => simp [parseColumnRow, hud] at h
  | err e => simp [parseColumnRow, hud] at h
  | ok col =>
    simp only [parseColumnRow, hud] at h
    exact colArray_fresh r col c
      (colUserDefined_fresh r _ col (colScalars_fresh r) hud) h

theorem parseTableColumns_fresh (rows : List ColumnRow) (cols : List Column)
    (h : parseTableColumns rows = .ok cols) : ∀ c ∈ cols, freshCol c := by
  induction rows generalizing cols with
  | nil =>
    simp only [parseTableColumns] at h
    injection h with h
    subst h
    simp
  | cons r rest ih =>
    cases hr : parseColumnRow r with
    | panic => simp [parseTableColumns, hr] at h
    | err e => simp [parseTableColumns, hr] at h
    | ok c =>
      cases hrest : parseTableColumns rest with
      | panic => simp [parseTableColumns, hr, hrest] at h
      | err e => simp [parseTableColumns, hr, hrest] at h
      | ok cs =>
        simp only [parseTableColumns, hr, hrest] at h
        injection h with h
        subst h
        intro c' hc'
        rcases List.mem_cons.mp hc' with h' | h'
        · subst h'
          exact parseColumnRow_fresh r c' hr
        · exact ih cs hrest c' h'

theorem foldl_alInsert_mem {α : Type} (P : String → α → Prop) (key : α → String)
    (xs : List α) (m : List (String × α)) (hm : ∀ p ∈ m, P p.1 p.2)
    (hxs : ∀ x ∈ xs, P (key x) x) :
    ∀ p ∈ xs.foldl (fun m x => alInsert m (key x) x) m, P p.1 p.2 := by
  induction xs generalizing m with
  | nil => simpa using hm
  | cons x rest ih =>
    simp only [List.foldl_cons]
    refine ih (alInsert m (key x) x) ?_ (fun y hy => hxs y (List.mem_cons_of_mem _ hy))
    intro p hp
    rcases mem_alInsert m (key x) x p hp with h' | h'
    · subst h'
      exact hxs x (List.mem_cons_self x rest)
    · exact hm p h'

theorem applyConstraint_keys (m : List (String × Column)) (c : Constraint) :
    (applyConstraint m c).map Prod.fst = m.map Prod.fst := by
  unfold applyConstraint
  cases hf : alFind? m c.columnname with
  | none => rfl
  | some col => exact alInsert_keys_of_find?_some m c.columnname _ col hf

theorem applyConstraint_skip (m : List (String × Column)) (c : Constraint)
    (h : alFind? m c.columnname = none) : applyConstraint m c = m := by
  unfold applyConstraint
  rw [h]

theorem applyConstraint_find?_ne (m : List (String × Column)) (c : Constraint)
    (k : String) (h : k ≠ c.columnname) :
    alFind? (applyConstraint m c) k = alFind? m k := by
  unfold applyConstraint
  cases hf : alFind? m c.columnname with
  | none => rfl
  | some col => exact alFind?_alInsert_ne m c.columnname k _ h

theorem refrenceConstraints_keys (cs : List Constraint)
    (m : List (String × Column)) :
    (refrenceConstraints m cs).map Prod.fst = m.map Prod.fst := by
  induction cs generalizing m with
  | nil => rfl
  | cons c rest ih =>
    rw [refrenceConstraints, ih, applyConstraint_keys]

theorem refrenceConstraints_find?_notmem (cs : List Constraint)
    (m : List (String × Column)) (k : String)
    (h : k ∉ cs.map (fun c => c.columnname)) :
    alFind? (refrenceConstraints m cs) k = alFind? m k := by
  induction cs generalizing m with
  | nil => rfl
  | cons c rest ih =>
    simp only [List.map_cons, List.mem_cons] at h
    push_neg at h
    rw [refrenceConstraints, ih (applyConstraint m c) h.2,
      applyConstraint_find?_ne m c k h.1]

/-- The agreement between a column's derived flags and its attached
constraints, relative to its key `n` in the lookup mapping. -/
def colInv (n : String) (c : Column) : Prop :=
  c.name = n ∧
  (c.isPrimary = true →
    ∃ k ∈ c.constraints, k.type = .primaryKey ∧ k.columnname = n) ∧
  (c.isUnique = true →
    ∃ k ∈ c.constraints, k.type = .unique ∧ k.columnname = n) ∧
  (c.isReference = true →
    ∃ k ∈ c.constraints, k.type = .foreignKey ∧ k.columnname = n ∧
      c.foreignTablename = k.foreignTablename ∧
      c.foreignColumnname = k.foreignColumnname)

theorem colInv_of_fresh (n : String) (c : Column) (hn : c.name = n)
    (h : freshCol c) : colInv n c := by
  obtain ⟨h1, h2, h3, h4⟩ := h
  refine ⟨hn, ?_, ?_, ?_⟩ <;> intro hflag
  · rw [h1] at hflag; cases hflag
  · rw [h2] at hflag; cases hflag
  · rw [h3] at hflag; cases hflag

theorem applyConstraint_inv (m : List (String × Column)) (c0 : Constraint)
    (h : ∀ p ∈ m, colInv p.1 p.2) :
    ∀ p ∈ applyConstraint m c0, colInv p.1 p.2 := by
  intro p hp
  unfold applyConstraint at hp
  cases hf : alFind? m c0.columnname with
  | none =>
    rw [hf] at hp
    exact h p hp
  | some col =>
    rw [hf] at hp
    simp only at hp
    have hcol : colInv c0.columnname col :=
      h (c0.columnname, col) (alFind?_mem m c0.columnname col hf)
    obtain ⟨hname, hpk, huq, hfk⟩ := hcol
    rcases mem_alInsert _ _ _ p hp with h' | h'
    swap
    · exact h p h'
    subst h'
    cases ht : c0.type
    all_goals
      refine ⟨?_, ?_, ?_, ?_⟩
    -- the 6 × 4 goals: name preservation and the three flag implications
    all_goals
      simp only [ht]
    all_goals
      first
      | exact hname
      | (intro hflag
         exact ⟨c0, by simp, ht, rfl⟩)
      | (intro hflag
         refine ⟨c0, by simp, ht, rfl, rfl, rfl⟩)
      | (intro hflag
         obtain ⟨k, hkmem, hk⟩ := hpk hflag
         exact ⟨k, List.mem_append_left _ hkmem, hk⟩)
      | (intro hflag
         obtain ⟨k, hkmem, hk⟩ := huq hflag
         exact ⟨k, List.mem_append_left _ hkmem, hk⟩)
      | (intro hflag
         obtain ⟨k, hkmem, hk⟩ := hfk hflag
         exact ⟨k, List.mem_append_left _ hkmem, hk⟩)

theorem refrenceConstraints_inv (cs : List Constraint)
    (m : List (String × Column)) (h : ∀ p ∈ m, colInv p.1 p.2) :
    ∀ p ∈ refrenceConstraints m cs, colInv p.1 p.2 := by
  induction cs generalizing m with
  | nil => exact h
  | cons c rest ih =>
    rw [refrenceConstraints]
    exact ih (applyConstraint m c) (applyConstraint_inv m c h)

theorem enumsFold_find? (rows : List EnumRow) (m : List (String × Enum))
    (n : String) :
    alFind? (enumsFold m rows) n =
      match alFind? m n with
      | some e => some { e with values := e.values ++ valuesOf rows n }
      | none =>
          if rows.any (fun r => r.typname = n) then
            some { name := n, values := valuesOf rows n }
          else none := by
  induction rows generalizing m with
  | nil =>
    cases hm : alFind? m n <;> simp [enumsFold, valuesOf, hm]
  | cons r rest ih =>
    rw [enumsFold]
    cases hm : alFind? m r.typname with
    | some enum =>
      rw [ih]
      by_cases hn : r.typname = n
      · subst hn
        rw [alFind?_alInsert_self, hm]
        simp [valuesOf]
      · rw [alFind?_alInsert_ne _ _ _ _ (fun he => hn he.symm)]
        cases hmn : alFind? m n <;> simp [valuesOf, hn, hmn]
    | none =>
      rw [ih]
      by_cases hn : r.typname = n
      · subst hn
        rw [alFind?_alInsert_self, hm]
        simp [valuesOf]
      · rw [alFind?_alInsert_ne _ _ _ _ (fun he => hn he.symm)]
        cases hmn : alFind? m n <;> simp [valuesOf, hn, hmn]

theorem enumsFold_entry_name (rows : List EnumRow) (m : List (String × Enum))
    (h : ∀ p ∈ m, (p.2 : Enum).name = p.1) :
    ∀ p ∈ enumsFold m rows, (p.2 : Enum).name = p.1 := by
  induction rows generalizing m with
  | nil => exact h
  | cons r rest ih =>
    rw [enumsFold]
    cases hm : alFind? m r.typname with
    | some enum =>
      refine ih _ ?_
      intro p hp
      rcases mem_alInsert _ _ _ p hp with h' | h'
      · subst h'
        exact h (r.typname, enum) (alFind?_mem _ _ _ hm)
      · exact h p h'
    | none =>
      refine ih _ ?_
      intro p hp
      rcases mem_alInsert _ _ _ p hp with h' | h'
      · subst h'; rfl
      · exact h p h'

theorem enumsFold_nodup_keys (rows : List EnumRow) (m : List (String × Enum))
    (h : (m.map Prod.fst).Nodup) :
    ((enumsFold m rows).map Prod.fst).Nodup := by
  induction rows generalizing m with
  | nil => exact h
  | cons r rest ih =>
    rw [enumsFold]
    cases hm : alFind? m r.typname <;>
      exact ih _ (nodup_keys_alInsert _ _ _ h)

theorem parseTable_ok (t : String) (colRows : List ColumnRow)
    (consRows : List ConstraintRow) (tbl : Table)
    (h : parseTable t colRows consRows = .ok tbl) :
    (∀ p ∈ tbl.columnsByName, colInv p.1 p.2) ∧
    tbl.columns = List.insertionSort colLE (tbl.columnsByName.map Prod.snd) := by
  cases hcols : parseTableColumns colRows with
  | panic => simp [parseTable, hcols] at h
  | err e => simp [parseTable, hcols] at h
  | ok cols =>
    cases hcons : parseTableConstraints t consRows with
    | panic => simp [parseTable, hcols, hcons] at h
    | err e => simp [parseTable, hcols, hcons] at h
    | ok cs =>
      simp only [parseTable, hcols, hcons] at h
      injection h with h
      subst h
      have hfresh := parseTableColumns_fresh colRows cols hcols
      have hbuild : ∀ p ∈ cols.foldl (fun m c => alInsert m c.name c) [],
          colInv p.1 p.2 := by
        refine foldl_alInsert_mem colInv Column.name cols [] (by simp) ?_
        intro x hx
        exact colInv_of_fresh x.name x rfl (hfresh x hx)
      exact ⟨refrenceConstraints_inv cs _ hbuild, rfl⟩

/-- C1 (counterexample): the Enum Extractor appends values in row delivery
order and applies no sort, so delivering the `status` rows as
`("done", 1), ("pending", 0)` yields the values in that delivery order,
which is not sorted by the order field — refuting the claim that any
permutation of the catalog rows yields values sorted by sort order. -/
theorem C1_counterexample :
    Enums [{ typname := "status", enumsortorder := 1, enumlabel := "done" },
           { typname := "status", enumsortorder := 0, enumlabel := "pending" }] =
      [{ name := "status",
         values := [{ label := "done", order := 1 },
                    { label := "pending", order := 0 }] }] ∧
    valuesSortedByOrder
      [{ label := "done", order := 1 },
       { label := "pending", order := 0 }] = false :=
  ⟨rfl, rfl⟩

/-- C1 (amended): every Enum produced by the Enum Extractor has its name
as grouping key and its value sequence equal to the `(label, order)` pairs
of that type's catalog rows in delivery order — no re-sort by the
catalog-reported sort order is applied. -/
theorem C1_enum_values_in_delivery_order (rows : List EnumRow) (e : Enum)
    (he : e ∈ Enums rows) : e.values = valuesOf rows e.name := by
  obtain ⟨p, hp, hsnd⟩ := List.mem_map.mp he
  have hname : e.name = p.1 := by
    rw [← hsnd]
    exact enumsFold_entry_name rows [] (by simp) p hp
  have hnd := enumsFold_nodup_keys rows [] (by simp)
  have hfind : alFind? (enumsFold [] rows) p.1 = some p.2 :=
    alFind?_of_mem_nodup _ p.1 p.2 hnd hp
  have hchar := enumsFold_find? rows [] p.1
  rw [hfind] at hchar
  cases hany : rows.any (fun r => r.typname = p.1) with
  | false => simp [alFind?, hany] at hchar
  | true =>
    simp only [alFind?, hany, if_true] at hchar
    injection hchar with hchar
    rw [← hsnd, hchar]

/-- C1 witness: the amended theorem at the two delivered `status` rows. -/
theorem C1_enum_values_witness :
    ({ name := "status",
       values := [{ label := "done", order := 1 },
                  { label := "pending", order := 0 }] } : Enum).values =
      valuesOf
        [{ typname := "status", enumsortorder := 1, enumlabel := "done" },
         { typname := "status", enumsortorder := 0, enumlabel := "pending" }]
        "status" :=
  C1_enum_values_in_delivery_order
    [{ typname := "status", enumsortorder := 1, enumlabel := "done" },
     { typname := "status", enumsortorder := 0, enumlabel := "pending" }]
    { name := "status",
      values := [{ label := "done", order := 1 },
                 { label := "pending", order := 0 }] }
    (by decide)

/-- C2 (counterexample): a PRIMARY KEY catalog row whose joined
constraint-column-usage fields are populated (as they are for primary keys
under the LEFT JOIN) yields a non-foreign-key Constraint whose
ForeignTablename/ForeignColumnname are non-empty — refuting the claim that
these fields are empty strings for non-foreign-key rows. -/
theorem C2_counterexample :
    parseTableConstraints "t"
      [{ constraintname := "pk", constrainttype := "PRIMARY KEY",
         columnname := some "id", foreignTablename := some "t",
         foreignColumnname := some "id" }] =
      .ok [{ name := "pk", type := .primaryKey, tablename := "t",
             columnname := "id", foreignTablename := "t",
             foreignColumnname := "id" }] ∧
    ConstraintType.primaryKey ≠ ConstraintType.foreignKey ∧
    ("t" : String) ≠ "" :=
  ⟨rfl, by decide, by decide⟩

/-- C2 (amended): for every constraint kind, the Constraint Extractor
copies the scanned foreign-table/foreign-column values verbatim onto the
constraint; the fields are empty only when the catalog row reports empty
strings, not because the row is non-foreign-key. -/
theorem C2_foreign_fields_verbatim (t : String) (r : ConstraintRow)
    (cn ft fc : String) (c : Constraint)
    (h1 : r.columnname = some cn) (h2 : r.foreignTablename = some ft)
    (h3 : r.foreignColumnname = some fc)
    (h : parseConstraintRow t r = .ok c) :
    c.columnname = cn ∧ c.foreignTablename = ft ∧ c.foreignColumnname = fc := by
  simp only [parseConstraintRow, h1, h2, h3] at h
  split at h <;>
    first
      | (injection h with h; rw [← h]; exact ⟨rfl, rfl, rfl⟩)
      | cases h

/-- C2 witness: the amended theorem at a concrete PRIMARY KEY row. -/
theorem C2_foreign_fields_witness :
    ({ name := "pk", type := .primaryKey, tablename := "t",
       columnname := "id", foreignTablename := "t",
       foreignColumnname := "id" } : Constraint).columnname = "id" ∧
    ({ name := "pk", type := .primaryKey, tablename := "t",
       columnname := "id", foreignTablename := "t",
       foreignColumnname := "id" } : Constraint).foreignTablename = "t" ∧
    ({ name := "pk", type := .primaryKey, tablename := "t",
       columnname := "id", foreignTablename := "t",
       foreignColumnname := "id" } : Constraint).foreignColumnname = "id" :=
  C2_foreign_fields_verbatim "t"
    { constraintname := "pk", constrainttype := "PRIMARY KEY",
      columnname := some "id", foreignTablename := some "t",
      foreignColumnname := some "id" }
    "id" "t" "id"
    { name := "pk", type := .primaryKey, tablename := "t",
      columnname := "id", foreignTablename := "t",
      foreignColumnname := "id" }
    rfl rfl rfl rfl

/-- C3 (counterexample): a catalog row labelled `CHECK` — a label inside
the claim's tolerated set {primary key, foreign key, unique, check,
trigger, exclusion} — makes the Constraint Extractor return a hard error
rather than mapping it to `ConstraintType.check`. -/
theorem C3_counterexample :
    parseConstraintRow "t"
      { constraintname := "ck", constrainttype := "CHECK",
        columnname := some "a", foreignTablename := some "x",
        foreignColumnname := some "y" } =
      .err "unsupported constraint type: CHECK" :=
  rfl

/-- C3 (amended): on a fully scanned row, the Constraint Extractor
succeeds exactly when the label is one of `PRIMARY KEY`, `FOREIGN KEY`,
`UNIQUE` (each mapped to its `ConstraintType`); every other label —
`CHECK`, `TRIGGER` and `EXCLUSION` included — is a hard error carrying the
`unsupported constraint type` message. -/
theorem C3_recognized_labels (t : String) (r : ConstraintRow)
    (cn ft fc : String)
    (h1 : r.columnname = some cn) (h2 : r.foreignTablename = some ft)
    (h3 : r.foreignColumnname = some fc) :
    ((∃ c, parseConstraintRow t r = .ok c) ↔
      (r.constrainttype = "PRIMARY KEY" ∨ r.constrainttype = "FOREIGN KEY" ∨
        r.constrainttype = "UNIQUE")) ∧
    (∀ c, parseConstraintRow t r = .ok c →
      (r.constrainttype = "PRIMARY KEY" → c.type = .primaryKey) ∧
      (r.constrainttype = "FOREIGN KEY" → c.type = .foreignKey) ∧
      (r.constrainttype = "UNIQUE" → c.type = .unique)) ∧
    (¬(r.constrainttype = "PRIMARY KEY" ∨ r.constrainttype = "FOREIGN KEY" ∨
        r.constrainttype = "UNIQUE") →
      parseConstraintRow t r =
        .err ("unsupported constraint type: " ++ r.constrainttype)) := by
  by_cases e1 : r.constrainttype = "PRIMARY KEY"
  · simp [parseConstraintRow, h1, h2, h3, e1]
  · by_cases e2 : r.constrainttype = "FOREIGN KEY"
    · simp [parseConstraintRow, h1, h2, h3, e1, e2]
    · by_cases e3 : r.constrainttype = "UNIQUE"
      · simp [parseConstraintRow, h1, h2, h3, e1, e2, e3]
      · simp [parseConstraintRow, h1, h2, h3, e1, e2, e3]

/-- C3 witness: the amended theorem at a concrete UNIQUE row. -/
theorem C3_recognized_labels_witness :
    ∃ c, parseConstraintRow "t"
      { constraintname := "uq", constrainttype := "UNIQUE",
        columnname := some "email", foreignTablename := some "t",
        foreignColumnname := some "email" } = .ok c :=
  (C3_recognized_labels "t"
    { constraintname := "uq", constrainttype := "UNIQUE",
      columnname := some "email", foreignTablename := some "t",
      foreignColumnname := some "email" }
    "email" "t" "email" rfl rfl rfl).1.mpr (Or.inr (Or.inr rfl))

/-- C4 (counterexample): assembling a table from a FOREIGN KEY catalog row
whose foreign fields are empty strings succeeds and marks the column
`is_reference = true` with empty `foreign_tablename`/`foreign_columnname`
— refuting the non-emptiness part of the claim. -/
theorem C4_counterexample :
    (resultColumn
        (parseTable "t"
          [{ ordinalPosition := 1, columnName := "a",
             dataTypeRaw := "integer" }]
          [{ constraintname := "fk", constrainttype := "FOREIGN KEY",
             columnname := some "a", foreignTablename := some "",
             foreignColumnname := some "" }]) "a").map
      (fun c => (c.isReference, c.foreignTablename, c.foreignColumnname)) =
      some (true, "", "") :=
  rfl

/-- C4 (amended): in every successfully assembled Table, each column's
derived flags agree with its attached constraints — `is_primary` implies an
attached primary-key constraint on that column, `is_unique` an attached
unique constraint, and `is_reference` an attached foreign-key constraint
whose foreign table/column equal the column's copied fields (which are
therefore non-empty exactly when the catalog row reported non-empty
values). -/
theorem C4_flags_agree (t : String) (colRows : List ColumnRow)
    (consRows : List ConstraintRow) (tbl : Table)
    (h : parseTable t colRows consRows = .ok tbl) :
    (∀ p ∈ tbl.columnsByName, colInv p.1 p.2) ∧
    (∀ c ∈ tbl.columns,
      (c.isPrimary = true →
        ∃ k ∈ c.constraints, k.type = .primaryKey ∧ k.columnname = c.name) ∧
      (c.isUnique = true →
        ∃ k ∈ c.constraints, k.type = .unique ∧ k.columnname = c.name) ∧
      (c.isReference = true →
        ∃ k ∈ c.constraints, k.type = .foreignKey ∧ k.columnname = c.name ∧
          c.foreignTablename = k.foreignTablename ∧
          c.foreignColumnname = k.foreignColumnname)) := by
  obtain ⟨hinv, hcols⟩ := parseTable_ok t colRows consRows tbl h
  refine ⟨hinv, ?_⟩
  intro c hc
  rw [hcols] at hc
  have hc' : c ∈ tbl.columnsByName.map Prod.snd :=
    (List.mem_insertionSort colLE).mp hc
  obtain ⟨p, hp, hpc⟩ := List.mem_map.mp hc'
  obtain ⟨hname, h1, h2, h3⟩ := hinv p hp
  rw [hpc] at hname h1 h2 h3
  rw [← hname] at h1 h2 h3
  exact ⟨h1, h2, h3⟩

/-- Sample catalog rows for a `users(id integer primary key)` table. -/
def usersIdColumnRow : ColumnRow :=
  { ordinalPosition := 1, columnName := "id", dataTypeRaw := "integer" }

/-- Sample primary-key catalog row for `users`. -/
def usersPkRow : ConstraintRow :=
  { constraintname := "pk", constrainttype := "PRIMARY KEY",
    columnname := some "id", foreignTablename := some "users",
    foreignColumnname := some "id" }

/-- The constraint extracted from `usersPkRow`. -/
def usersPk : Constraint :=
  { name := "pk", type := .primaryKey, tablename := "users",
    columnname := "id", foreignTablename := "users",
    foreignColumnname := "id" }

/-- The `id` column of the assembled `users` table. -/
def usersIdColumn : Column :=
  { ordinalPosition := 1, name := "id", constraints := [usersPk],
    isPrimary := true, datatypeRaw := "integer", datatype := .int }

/-- The assembled `users` table. -/
def usersTable : Table :=
  { name := "users", columns := [usersIdColumn],
    columnsByName := [("id", usersIdColumn)] }

/-- C4 witness: the amended theorem at the concrete `users` table, whose
`id` column is marked primary. -/
theorem C4_flags_agree_witness :
    ∃ k ∈ usersIdColumn.constraints,
      k.type = ConstraintType.primaryKey ∧ k.columnname = usersIdColumn.name :=
  ((C4_flags_agree "users" [usersIdColumnRow] [usersPkRow] usersTable
      (by decide)).2 usersIdColumn (by decide)).1 rfl

/-- C5 (confirmed): every successfully assembled Table has its ordered
column sequence sorted non-decreasing by ordinal position, that sequence
is a permutation of the lookup mapping's entries, and every entry of the
lookup mapping is keyed by its column's name. -/
theorem C5_columns_sorted_consistent (t : String) (colRows : List ColumnRow)
    (consRows : List ConstraintRow) (tbl : Table)
    (h : parseTable t colRows consRows = .ok tbl) :
    tbl.columns.Sorted colLE ∧
    tbl.columns.Perm (tbl.columnsByName.map Prod.snd) ∧
    (tbl.columns.map Column.name).Perm (tbl.columnsByName.map Prod.fst) ∧
    ∀ p ∈ tbl.columnsByName, (p.2 : Column).name = p.1 := by
  obtain ⟨hinv, hcols⟩ := parseTable_ok t colRows consRows tbl h
  have hperm : tbl.columns.Perm (tbl.columnsByName.map Prod.snd) := by
    rw [hcols]
    exact List.perm_insertionSort colLE _
  refine ⟨?_, hperm, ?_, fun p hp => (hinv p hp).1⟩
  · rw [hcols]
    exact List.sorted_insertionSort colLE _
  · have hmap := hperm.map Column.name
    rw [List.map_map] at hmap
    have heq : tbl.columnsByName.map (Column.name ∘ Prod.snd) =
        tbl.columnsByName.map Prod.fst :=
      List.map_congr_left (fun p hp => (hinv p hp).1)
    rw [heq] at hmap
    exact hmap

/-- Sample column rows of a two-column table delivered out of ordinal
order. -/
def t2ColumnRows : List ColumnRow :=
  [{ ordinalPosition := 2, columnName := "b", dataTypeRaw := "text" },
   { ordinalPosition := 1, columnName := "a", dataTypeRaw := "integer" }]

/-- The first (ordinal 1) column of the assembled two-column table. -/
def t2ColumnA : Column :=
  { ordinalPosition := 1, name := "a", datatypeRaw := "integer",
    datatype := .int }

/-- The second (ordinal 2) column of the assembled two-column table. -/
def t2ColumnB : Column :=
  { ordinalPosition := 2, name := "b", datatypeRaw := "text",
    datatype := .text }

/-- The assembled two-column table: columns re-sorted by ordinal position
although the catalog delivered them in the opposite order. -/
def t2Table : Table :=
  { name := "t2", columns := [t2ColumnA, t2ColumnB],
    columnsByName := [("b", t2ColumnB), ("a", t2ColumnA)] }

/-- C5 witness: the theorem at the concrete two-column table. -/
theorem C5_columns_sorted_witness :
    t2Table.columns.Sorted colLE ∧
    t2Table.columns.Perm (t2Table.columnsByName.map Prod.snd) ∧
    (t2Table.columns.map Column.name).Perm (t2Table.columnsByName.map Prod.fst) ∧
    ∀ p ∈ t2Table.columnsByName, (p.2 : Column).name = p.1 :=
  C5_columns_sorted_consistent "t2" t2ColumnRows [] t2Table (by decide)

/-- C6 (confirmed): for every column row whose raw type classifies as
array (and whose element type was delivered, so no nil dereference), the
extracted column has `is_array = true`, keeps `datatype_raw` verbatim, has
`datatype` equal to the classification of the element type string
(`unknown` when unmapped), and, when the element classifies as
user-defined, `UserDefinedType` is populated from the element-level udt
name and schema. -/
theorem C6_array_columns (r : ColumnRow) (e un us : String)
    (ha : classify r.dataTypeRaw = .array)
    (he : r.elementArraytypeRaw = some e)
    (hu : classify e = .userdefined →
      r.elementUdtName = some un ∧ r.elementUdtSchema = some us) :
    ∃ c, parseColumnRow r = .ok c ∧ c.isArray = true ∧
      c.datatypeRaw = r.dataTypeRaw ∧ c.datatype = classify e ∧
      (postgresDatatypemap e = none → c.datatype = .unknown) ∧
      (classify e = .userdefined →
        c.userDefinedType = some { name := un, schema := us }) := by
  have hdt : (colScalars r).datatype = classify r.dataTypeRaw :=
    colScalars_datatype r
  have hisarr : (colScalars r).datatype = .array := by rw [hdt, ha]
  have hne : (colScalars r).datatype ≠ .userdefined := by
    rw [hisarr]
    decide
  have hud : colUserDefined r (colScalars r) = .ok (colScalars r) := by
    unfold colUserDefined
    rw [if_neg hne]
  have hpr : parseColumnRow r = colArray r (colScalars r) := by
    simp only [parseColumnRow, hud]
  rw [hpr]
  unfold colArray
  rw [if_pos hisarr]
  by_cases hue : classify e = .userdefined
  · obtain ⟨hn, hs⟩ := hu hue
    simp only [he, hn, hs, hue, if_pos]
    refine ⟨_, rfl, rfl, colScalars_datatypeRaw r, rfl, ?_, fun _ => rfl⟩
    intro hnone
    rw [classify, hnone] at hue
    exact absurd hue (by decide)
  · simp only [he, hue, if_neg, if_false]
    refine ⟨_, rfl, rfl, colScalars_datatypeRaw r, rfl, ?_, ?_⟩
    · intro hnone
      show classify e = .unknown
      rw [classify, hnone]
      rfl
    · intro hx
      exact hx.elim

/-- C6 witness: the theorem at a concrete `ARRAY` of `integer` row; the
resulting column has `is_array = true` and `datatype = int`. -/
theorem C6_array_columns_witness :
    ∃ c, parseColumnRow
        { ordinalPosition := 1, columnName := "xs", dataTypeRaw := "ARRAY",
          elementArraytypeRaw := some "integer" } = .ok c ∧
      c.isArray = true ∧ c.datatypeRaw = "ARRAY" ∧
      c.datatype = Datatype.int ∧
      (postgresDatatypemap "integer" = none → c.datatype = .unknown) ∧
      (classify "integer" = .userdefined →
        c.userDefinedType = some { name := "", schema := "" }) :=
  C6_array_columns
    { ordinalPosition := 1, columnName := "xs", dataTypeRaw := "ARRAY",
      elementArraytypeRaw := some "integer" }
    "integer" "" "" rfl rfl (by decide)

/-- C7 (confirmed): a constraint whose owning column name is not a key of
the table's lookup mapping is skipped without effect: reconciling with it
present gives exactly the same mapping as reconciling without it (the
reconciler itself never fails — its source returns a nil error
unconditionally). -/
theorem C7_orphan_skipped (m : List (String × Column)) (c : Constraint)
    (pre post : List Constraint) (h : alFind? m c.columnname = none) :
    refrenceConstraints m (pre ++ c :: post) =
      refrenceConstraints m (pre ++ post) := by
  induction pre generalizing m with
  | nil =>
    simp only [List.nil_append]
    rw [refrenceConstraints, applyConstraint_skip m c h]
  | cons p pre' ih =>
    simp only [List.cons_append, refrenceConstraints]
    apply ih
    rw [alFind?_eq_none_iff] at h ⊢
    rw [applyConstraint_keys]
    exact h

/-- C7 witness: the theorem at a one-column mapping and an orphaned
constraint naming an absent column. -/
theorem C7_orphan_skipped_witness :
    refrenceConstraints [("id", usersIdColumn)]
        ([] ++ { name := "orph", type := ConstraintType.unique,
                 tablename := "users", columnname := "ghost" } :: [usersPk]) =
      refrenceConstraints [("id", usersIdColumn)] ([] ++ [usersPk]) :=
  C7_orphan_skipped [("id", usersIdColumn)]
    { name := "orph", type := ConstraintType.unique, tablename := "users",
      columnname := "ghost" }
    [] [usersPk] (by decide)

/-- C8 (confirmed): `ParseContext` succeeds exactly when both adapter
calls succeed; a table-step failure is returned verbatim with the enum
step never invoked, and an enum-step failure after a successful table step
is returned verbatim. -/
theorem C8_parse_orchestration {ε : Type} (tablesRes : Except ε (List Table))
    (enumsRes : Except ε (List Enum)) (s : SchemaS) :
    ((ParseContext tablesRes enumsRes s).1 = .ok () ↔
      (∃ ts, tablesRes = .ok ts) ∧ (∃ es, enumsRes = .ok es)) ∧
    (∀ e, tablesRes = .error e →
      (ParseContext tablesRes enumsRes s).1 = .error e ∧
      (ParseContext tablesRes enumsRes s).2.2 = [Step.tablesStep] ∧
      Step.enumsStep ∉ (ParseContext tablesRes enumsRes s).2.2) ∧
    (∀ ts e, tablesRes = .ok ts → enumsRes = .error e →
      (ParseContext tablesRes enumsRes s).1 = .error e) := by
  cases tablesRes <;> cases enumsRes <;> simp [ParseContext]

/-- C8 witness: the theorem at a failing table step. -/
theorem C8_parse_orchestration_witness :
    (ParseContext (Except.error "boom" : Except String (List Table))
        (Except.ok []) {}).1 = .error "boom" ∧
    Step.enumsStep ∉
      (ParseContext (Except.error "boom" : Except String (List Table))
        (Except.ok []) {}).2.2 :=
  have h := (C8_parse_orchestration
    (Except.error "boom" : Except String (List Table))
    (Except.ok []) {}).2.1 "boom" rfl
  ⟨h.1, h.2.2⟩

/-- C9 (confirmed): extraction is not total over rows with NULLs in
nullable-scanned fields — a NULL constraint column name, a NULL element
type on an ARRAY column, a NULL udt name/schema on a USER-DEFINED column,
and a NULL table name in the table listing each make the code dereference
a nil pointer (modelled as `ExtractResult.panic`) instead of returning an
error value or a defaulted field. -/
theorem C9_null_rows_panic :
    parseTableConstraints "t"
      [{ constraintname := "c1", constrainttype := "PRIMARY KEY",
         columnname := none, foreignTablename := some "x",
         foreignColumnname := some "y" }] = .panic ∧
    parseTableColumns
      [{ ordinalPosition := 1, columnName := "xs", dataTypeRaw := "ARRAY",
         elementArraytypeRaw := none }] = .panic ∧
    parseTableColumns
      [{ ordinalPosition := 1, columnName := "u",
         dataTypeRaw := "USER-DEFINED", udtName := none,
         udtSchema := none }] = .panic ∧
    Tables (fun _ => []) (fun _ => []) [(none : TableRow)] = .panic :=
  ⟨rfl, rfl, rfl, rfl⟩

/-- C10 (confirmed): the Constraint Reconciler never alters the key set of
the lookup mapping, and any key matching no constraint's owning column
name keeps exactly its original column, all fields unchanged. -/
theorem C10_reconciler_frame (m : List (String × Column))
    (cs : List Constraint) :
    (refrenceConstraints m cs).map Prod.fst = m.map Prod.fst ∧
    ∀ k, k ∉ cs.map (fun c => c.columnname) →
      alFind? (refrenceConstraints m cs) k = alFind? m k :=
  ⟨refrenceConstraints_keys cs m,
   fun k hk => refrenceConstraints_find?_notmem cs m k hk⟩

/-- C10 witness: the theorem at the two-column mapping with a unique
constraint on `b` only; the key list is preserved and `a` is untouched. -/
theorem C10_reconciler_frame_witness :
    (refrenceConstraints [("b", t2ColumnB), ("a", t2ColumnA)]
        [{ name := "uq", type := ConstraintType.unique, tablename := "t2",
           columnname := "b" }]).map Prod.fst =
      [("b", t2ColumnB), ("a", t2ColumnA)].map Prod.fst ∧
    alFind? (refrenceConstraints [("b", t2ColumnB), ("a", t2ColumnA)]
        [{ name := "uq", type := ConstraintType.unique, tablename := "t2",
           columnname := "b" }]) "a" =
      alFind? [("b", t2ColumnB), ("a", t2ColumnA)] "a" :=
  ⟨(C10_reconciler_frame [("b", t2ColumnB), ("a", t2ColumnA)]
      [{ name := "uq", type := ConstraintType.unique, tablename := "t2",
         columnname := "b" }]).1,
   (C10_reconciler_frame [("b", t2ColumnB), ("a", t2ColumnA)]
      [{ name := "uq", type := ConstraintType.unique, tablename := "t2",
         columnname := "b" }]).2 "a" (by decide)⟩

end InverseSchema
